import Mathlib

/-!
Shallow embedding of the remote-model hosting protocol implemented in
src/python/magent/model.py: the supervisor-side proxy ProcessingModel and the
worker-side dispatch loop model_client, communicating over one ordered duplex
pipe.  The opaque learning algorithm (RLModel) is modelled as a record of
state-passing functions; the pipe is modelled by dispatching each sent command
in the single-threaded Host loop and queueing its responses in a FIFO inbox,
which is observationally equivalent for the blocking-read Handle.
-/

namespace MAgent

/-- One recorded step of experience for a group of agents:
(ids, observation, actions, rewards, alive flags). -/
structure Transition (Obs Acts : Type) where
  ids : List Int
  obs : Obs
  acts : Acts
  rewards : List Rat
  alives : List Bool
deriving DecidableEq

/-- Modelled from the spec: the class magent.utility.EpisodesBuffer is not in
the given sources (only its caller model_client is).  The spec describes it as
an ordered, capacity-bounded collection of Transitions accumulated between
training calls, with interface new(capacity) and recordStep. -/
structure EpisodesBuffer (Obs Acts : Type) where
  capacity : Nat
  steps : List (Transition Obs Acts)
deriving DecidableEq

/-- Modelled from the spec: EpisodesBuffer(capacity) starts empty. -/
def EpisodesBuffer.new {Obs Acts : Type} (capacity : Nat) : EpisodesBuffer Obs Acts :=
  ⟨capacity, []⟩

/-- Modelled from the spec: recordStep appends one Transition to the ordered
collection.  The capacity-overflow policy is owned by the buffer collaborator
and is not exercised by any claim settled here. -/
def EpisodesBuffer.record_step {Obs Acts : Type} (b : EpisodesBuffer Obs Acts)
    (ids : List Int) (obs : Obs) (acts : Acts) (rewards : List Rat) (alives : List Bool) :
    EpisodesBuffer Obs Acts :=
  { b with steps := b.steps ++ [⟨ids, obs, acts, rewards, alives⟩] }

/-- The opaque learning algorithm (the RLModel / BaseModel interface of
model.py) consumed by the worker, with its internal state σ made explicit and
threaded through the four operations. -/
structure Capability (σ Obs Acts : Type) where
  infer_action : σ → Obs → List Int → String → Rat → σ × Acts
  train : σ → EpisodesBuffer Obs Acts → Int → σ × Rat × Rat
  save : σ → String → Int → σ
  load : σ → String → Int → Option String → σ

/-- A command message on the pipe, as built by the ProcessingModel methods:
a tag plus exactly the payload that tag carries.  The constructor names are
the tag strings of model.py; unknown covers every other tag string. -/
inductive Cmd (Obs : Type) where
  | act (obs : Obs) (ids : List Int) (policy : String) (eps : Rat)
  | sample (rewards : List Rat) (alives : List Bool)
  | train (print_every : Int)
  | save (dir : String) (epoch : Int)
  | load (dir : String) (epoch : Int) (name : Option String)
  | quit
  | unknown (tag : String)
deriving DecidableEq

/-- A response message written by the worker loop: an action vector (from the
act branch), a (loss, mean value) pair (from the train branch), or the literal
completion marker string "done". -/
inductive Resp (Acts : Type) where
  | actions (acts : Acts)
  | trainResult (loss value : Rat)
  | done
deriving DecidableEq

/-- The local state of the model_client worker loop: the model instance, the
sample_buffer_capacity argument, the current sample_buffer, and the loop
variables ids/obs/acts, which are unbound until the first act command and are
always (re)bound together by an act dispatch. -/
structure HostState (σ Obs Acts : Type) where
  model : σ
  sample_buffer_capacity : Nat
  buffer : EpisodesBuffer Obs Acts
  last : Option (List Int × Obs × Acts)

/-- The worker state immediately after model_client builds the model and the
initial empty buffer, before any command is read. -/
def initState {σ Obs Acts : Type} (m : σ) (sample_buffer_capacity : Nat) :
    HostState σ Obs Acts :=
  ⟨m, sample_buffer_capacity, EpisodesBuffer.new sample_buffer_capacity, none⟩

/-- Result of dispatching one command in the worker loop: continue with a new
state after sending the listed responses, leave the loop after sending the
listed responses and printed log lines, or crash (an uncaught exception). -/
inductive StepResult (σ Obs Acts : Type) where
  | cont (s : HostState σ Obs Acts) (resps : List (Resp Acts))
  | halt (resps : List (Resp Acts)) (log : List String)
  | crash

/-- One iteration of the model_client dispatch: match on the command tag and
perform the corresponding branch of the while loop.  A sample command read
while ids/obs/acts are still unbound is a NameError, i.e. a crash. -/
def dispatch {σ Obs Acts : Type} (cap : Capability σ Obs Acts)
    (s : HostState σ Obs Acts) : Cmd Obs → StepResult σ Obs Acts
  | .act obs ids policy eps =>
    .cont
      { s with
        model := (cap.infer_action s.model obs ids policy eps).1,
        last := some (ids, obs, (cap.infer_action s.model obs ids policy eps).2) }
      [.actions (cap.infer_action s.model obs ids policy eps).2]
  | .train print_every =>
    .cont
      { s with
        model := (cap.train s.model s.buffer print_every).1,
        buffer := EpisodesBuffer.new s.sample_buffer_capacity }
      [.trainResult (cap.train s.model s.buffer print_every).2.1
        (cap.train s.model s.buffer print_every).2.2]
  | .sample rewards alives =>
    match s.last with
    | some (ids, obs, acts) =>
      .cont { s with buffer := s.buffer.record_step ids obs acts rewards alives } [.done]
    | none => .crash
  | .save dir epoch =>
    .cont { s with model := cap.save s.model dir epoch } [.done]
  | .load dir epoch name =>
    .cont { s with model := cap.load s.model dir epoch name } [.done]
  | .quit => .halt [] []
  | .unknown tag => .halt [] ["Error: Unknown command " ++ tag]

/-- Outcome of running the worker loop on a finite command sequence: still in
the loop waiting for the next command, exited via break, or crashed. -/
inductive HostOutcome (σ Obs Acts : Type) where
  | ready (s : HostState σ Obs Acts)
  | stopped
  | crashed

/-- True when the worker loop is still running. -/
def HostOutcome.isReady {σ Obs Acts : Type} : HostOutcome σ Obs Acts → Bool
  | .ready _ => true
  | _ => false

/-- Run the model_client loop over a finite list of received commands,
collecting every response it sends, in send order. -/
def hostRun {σ Obs Acts : Type} (cap : Capability σ Obs Acts) :
    HostState σ Obs Acts → List (Cmd Obs) → HostOutcome σ Obs Acts × List (Resp Acts)
  | s, [] => (.ready s, [])
  | s, c :: cs =>
    match dispatch cap s c with
    | .cont s2 rs => ((hostRun cap s2 cs).1, rs ++ (hostRun cap s2 cs).2)
    | .halt rs _ => (.stopped, rs)
    | .crash => (.crashed, [])

/-- The Handle-side view of one connected Handle/Host pair: the Host outcome,
the FIFO of responses the Host has written but the Handle has not yet read,
and the log of every command the Handle has written to the pipe.  Because the
Host loop is single threaded and the pipe preserves order, dispatching each
command at send time and queueing its responses is faithful to the blocking
pipe of model.py. -/
structure Conn (σ Obs Acts : Type) where
  outcome : HostOutcome σ Obs Acts
  inbox : List (Resp Acts)
  wire : List (Cmd Obs)

/-- The connection just after ProcessingModel.__init__ spawned the worker. -/
def initConn {σ Obs Acts : Type} (m : σ) (sample_buffer_capacity : Nat) :
    Conn σ Obs Acts :=
  ⟨.ready (initState m sample_buffer_capacity), [], []⟩

/-- conn.send(cmd) on the Handle side: the command goes on the wire; the
worker, if still in its loop, dispatches it and its responses join the FIFO
of messages pending for the Handle. -/
def sendCmd {σ Obs Acts : Type} (cap : Capability σ Obs Acts)
    (sys : Conn σ Obs Acts) (c : Cmd Obs) : Conn σ Obs Acts :=
  match sys.outcome with
  | .ready s =>
    match dispatch cap s c with
    | .cont s2 rs => ⟨.ready s2, sys.inbox ++ rs, sys.wire ++ [c]⟩
    | .halt rs _ => ⟨.stopped, sys.inbox ++ rs, sys.wire ++ [c]⟩
    | .crash => ⟨.crashed, sys.inbox, sys.wire ++ [c]⟩
  | _ => { sys with wire := sys.wire ++ [c] }

/-- conn.recv() on the Handle side: take the next pending response; none
models a call that never returns (the worker sent nothing to read). -/
def recv {σ Obs Acts : Type} (sys : Conn σ Obs Acts) :
    Conn σ Obs Acts × Option (Resp Acts) :=
  match sys.inbox with
  | [] => (sys, none)
  | r :: rest => ({ sys with inbox := rest }, some r)

/-- How a Handle call that validates a response ends: normally, with the
assertion in check_done failing (the spec's ProtocolError), or blocked with
nothing to read. -/
inductive Status where
  | ok
  | protocolError
  | blocked
deriving DecidableEq

/-- ProcessingModel.check_done: recv one message and assert it equals the
completion marker "done". -/
def ProcessingModel.check_done {σ Obs Acts : Type} (sys : Conn σ Obs Acts) :
    Conn σ Obs Acts × Status :=
  match recv sys with
  | (sys2, some .done) => (sys2, .ok)
  | (sys2, some _) => (sys2, .protocolError)
  | (sys2, none) => (sys2, .blocked)

/-- ProcessingModel.sample_step: send ["sample", rewards, alives]; when block,
wait via check_done. -/
def ProcessingModel.sample_step {σ Obs Acts : Type} (cap : Capability σ Obs Acts)
    (sys : Conn σ Obs Acts) (rewards : List Rat) (alives : List Bool) (block : Bool) :
    Conn σ Obs Acts × Status :=
  let sys2 := sendCmd cap sys (.sample rewards alives)
  if block then ProcessingModel.check_done sys2 else (sys2, .ok)

/-- ProcessingModel.infer_action: send ["act", raw_obs, ids, policy, eps];
when block, return conn.recv(), else return None. -/
def ProcessingModel.infer_action {σ Obs Acts : Type} (cap : Capability σ Obs Acts)
    (sys : Conn σ Obs Acts) (raw_obs : Obs) (ids : List Int) (policy : String)
    (eps : Rat) (block : Bool) : Conn σ Obs Acts × Option (Resp Acts) :=
  let sys2 := sendCmd cap sys (.act raw_obs ids policy eps)
  if block then recv sys2 else (sys2, none)

/-- ProcessingModel.fetch_action: return conn.recv(). -/
def ProcessingModel.fetch_action {σ Obs Acts : Type} (sys : Conn σ Obs Acts) :
    Conn σ Obs Acts × Option (Resp Acts) :=
  recv sys

/-- ProcessingModel.fetch_train: return conn.recv(). -/
def ProcessingModel.fetch_train {σ Obs Acts : Type} (sys : Conn σ Obs Acts) :
    Conn σ Obs Acts × Option (Resp Acts) :=
  recv sys

/-- ProcessingModel.train: send ["train", print_every]; when block, return
fetch_train(), else return None. -/
def ProcessingModel.train {σ Obs Acts : Type} (cap : Capability σ Obs Acts)
    (sys : Conn σ Obs Acts) (print_every : Int) (block : Bool) :
    Conn σ Obs Acts × Option (Resp Acts) :=
  let sys2 := sendCmd cap sys (.train print_every)
  if block then ProcessingModel.fetch_train sys2 else (sys2, none)

/-- ProcessingModel.save: send ["save", save_dir, epoch]; when block, wait
via check_done. -/
def ProcessingModel.save {σ Obs Acts : Type} (cap : Capability σ Obs Acts)
    (sys : Conn σ Obs Acts) (save_dir : String) (epoch : Int) (block : Bool) :
    Conn σ Obs Acts × Status :=
  let sys2 := sendCmd cap sys (.save save_dir epoch)
  if block then ProcessingModel.check_done sys2 else (sys2, .ok)

/-- ProcessingModel.load: send ["load", save_dir, epoch, name]; when block,
wait via check_done. -/
def ProcessingModel.load {σ Obs Acts : Type} (cap : Capability σ Obs Acts)
    (sys : Conn σ Obs Acts) (save_dir : String) (epoch : Int) (name : Option String)
    (block : Bool) : Conn σ Obs Acts × Status :=
  let sys2 := sendCmd cap sys (.load save_dir epoch name)
  if block then ProcessingModel.check_done sys2 else (sys2, .ok)

/-- ProcessingModel.quit: send ["quit"] and return at once, reading nothing. -/
def ProcessingModel.quit {σ Obs Acts : Type} (cap : Capability σ Obs Acts)
    (sys : Conn σ Obs Acts) : Conn σ Obs Acts :=
  sendCmd cap sys .quit

/-- True of the sample tag. -/
def Cmd.isSample {Obs : Type} : Cmd Obs → Bool
  | .sample _ _ => true
  | _ => false

/-- True of the train tag. -/
def Cmd.isTrain {Obs : Type} : Cmd Obs → Bool
  | .train _ => true
  | _ => false

/-- True of the three tags (train, save, load) that neither bind ids/obs/acts
nor read them nor leave the loop. -/
def Cmd.isTSL {Obs : Type} : Cmd Obs → Bool
  | .train _ => true
  | .save _ _ => true
  | .load _ _ _ => true
  | _ => false

/-- okTrace b cmds: cmds consists only of recognized non-quit commands and,
when b is false (no act dispatched yet), no sample occurs before the first
act.  The flag b tracks whether ids/obs/acts are bound in the worker. -/
def okTrace {Obs : Type} : Bool → List (Cmd Obs) → Bool
  | _, [] => true
  | _, .act _ _ _ _ :: cs => okTrace true cs
  | b, .sample _ _ :: cs => b && okTrace b cs
  | b, .train _ :: cs => okTrace b cs
  | b, .save _ _ :: cs => okTrace b cs
  | b, .load _ _ _ :: cs => okTrace b cs
  | _, .quit :: _ => false
  | _, .unknown _ :: _ => false

/-- A response has the shape the command's branch sends: an action vector for
act, a (loss, value) pair for train, the completion marker for sample, save
and load. -/
def respMatches {Obs Acts : Type} : Cmd Obs → Resp Acts → Bool
  | .act _ _ _ _, .actions _ => true
  | .train _, .trainResult _ _ => true
  | .sample _ _, .done => true
  | .save _ _, .done => true
  | .load _ _ _, .done => true
  | _, _ => false

/-- A concrete trivial capability used to evaluate the model on closed
inputs: unit model state, numeric observation and action-vector tokens. -/
def capU : Capability Unit Nat Nat :=
  ⟨fun _ _ _ _ _ => ((), 0), fun _ _ _ => ((), 0, 0),
   fun _ _ _ => (), fun _ _ _ _ => ()⟩

/-- The loop variables ids/obs/acts of a continuing dispatch, or none when
the dispatch left the loop or crashed. -/
def StepResult.lastBound {σ Obs Acts : Type} :
    StepResult σ Obs Acts → Option (Option (List Int × Obs × Acts))
  | .cont s _ => some s.last
  | _ => none

/-- A concrete worker state used to evaluate theorems on closed inputs: one
transition already buffered and ids/obs/acts bound by a previous act. -/
def sW : HostState Unit Nat Nat :=
  ⟨(), 2, ⟨2, [⟨[1], 5, 7, [0], [true]⟩]⟩, some ([1], 5, 7)⟩

/-- A concrete connection to a running worker in state sW with nothing
pending. -/
def connW : Conn Unit Nat Nat :=
  ⟨.ready sW, [], []⟩

/-- Running the worker loop over recognized non-quit commands in which no
sample precedes the first act (okTrace) keeps the loop alive and produces one
shape-matching response per command, in order.  The flag b underapproximates
whether ids/obs/acts are bound. -/
theorem hostRun_respMatches {σ Obs Acts : Type} (cap : Capability σ Obs Acts) :
    ∀ (cmds : List (Cmd Obs)) (b : Bool) (s : HostState σ Obs Acts),
      okTrace b cmds = true → (b = true → s.last.isSome = true) →
      (hostRun cap s cmds).1.isReady = true ∧
      List.Forall₂ (fun c r => respMatches c r = true) cmds (hostRun cap s cmds).2 := by
  intro cmds
  induction cmds with
  | nil => intro b s _ _; exact ⟨rfl, List.Forall₂.nil⟩
  | cons c cs ih =>
    intro b s h himp
    cases c with
    | act o ids pol eps =>
      have h2 : okTrace true cs = true := h
      simp only [hostRun, dispatch, List.singleton_append]
      obtain ⟨ih1, ih2⟩ := ih true
        { s with
          model := (cap.infer_action s.model o ids pol eps).1,
          last := some (ids, o, (cap.infer_action s.model o ids pol eps).2) }
        h2 (fun _ => rfl)
      exact ⟨ih1, List.Forall₂.cons rfl ih2⟩
    | sample r a =>
      have h2 : (b && okTrace b cs) = true := h
      have h3 : b = true ∧ okTrace b cs = true := by simpa using h2
      have hsome : s.last.isSome = true := himp h3.1
      obtain ⟨⟨ids, o, acts⟩, hsl⟩ := Option.isSome_iff_exists.mp hsome
      simp only [hostRun, dispatch, hsl, List.singleton_append]
      obtain ⟨ih1, ih2⟩ := ih b
        { s with
          buffer := s.buffer.record_step ids o acts r a,
          last := some (ids, o, acts) }
        h3.2 (fun _ => rfl)
      exact ⟨ih1, List.Forall₂.cons rfl ih2⟩
    | train p =>
      have h2 : okTrace b cs = true := h
      simp only [hostRun, dispatch, List.singleton_append]
      obtain ⟨ih1, ih2⟩ := ih b
        { s with
          model := (cap.train s.model s.buffer p).1,
          buffer := EpisodesBuffer.new s.sample_buffer_capacity }
        h2 himp
      exact ⟨ih1, List.Forall₂.cons rfl ih2⟩
    | save dir epoch =>
      have h2 : okTrace b cs = true := h
      simp only [hostRun, dispatch, List.singleton_append]
      obtain ⟨ih1, ih2⟩ := ih b { s with model := cap.save s.model dir epoch } h2 himp
      exact ⟨ih1, List.Forall₂.cons rfl ih2⟩
    | load dir epoch name =>
      have h2 : okTrace b cs = true := h
      simp only [hostRun, dispatch, List.singleton_append]
      obtain ⟨ih1, ih2⟩ := ih b { s with model := cap.load s.model dir epoch name } h2 himp
      exact ⟨ih1, List.Forall₂.cons rfl ih2⟩
    | quit => exact Bool.noConfusion h
    | unknown tag => exact Bool.noConfusion h

/-- From a worker state whose ids/obs/acts are unbound, any run of train,
save and load commands followed by a sample crashes the loop, and only the
commands before the sample get responses. -/
theorem hostRun_crashes_on_unpaired_sample {σ Obs Acts : Type}
    (cap : Capability σ Obs Acts) :
    ∀ (pre : List (Cmd Obs)) (s : HostState σ Obs Acts) (r : List Rat)
      (a : List Bool) (rest : List (Cmd Obs)),
      s.last = none → pre.all Cmd.isTSL = true →
      (hostRun cap s (pre ++ Cmd.sample r a :: rest)).1 = HostOutcome.crashed ∧
      (hostRun cap s (pre ++ Cmd.sample r a :: rest)).2.length = pre.length := by
  intro pre
  induction pre with
  | nil =>
    intro s r a rest hlast _
    simp [hostRun, dispatch, hlast]
  | cons c pre ih =>
    intro s r a rest hlast hall
    have hc : c.isTSL = true ∧ pre.all Cmd.isTSL = true := by
      simpa [List.all_cons] using hall
    cases c with
    | act o ids pol eps => exact Bool.noConfusion hc.1
    | sample r2 a2 => exact Bool.noConfusion hc.1
    | quit => exact Bool.noConfusion hc.1
    | unknown tag => exact Bool.noConfusion hc.1
    | train p =>
      simp only [List.cons_append, hostRun, dispatch, List.singleton_append]
      obtain ⟨ih1, ih2⟩ := ih
        { s with
          model := (cap.train s.model s.buffer p).1,
          buffer := EpisodesBuffer.new s.sample_buffer_capacity }
        r a rest hlast hc.2
      exact ⟨ih1, by simp [ih2]⟩
    | save dir epoch =>
      simp only [List.cons_append, hostRun, dispatch, List.singleton_append]
      obtain ⟨ih1, ih2⟩ := ih { s with model := cap.save s.model dir epoch }
        r a rest hlast hc.2
      exact ⟨ih1, by simp [ih2]⟩
    | load dir epoch name =>
      simp only [List.cons_append, hostRun, dispatch, List.singleton_append]
      obtain ⟨ih1, ih2⟩ := ih { s with model := cap.load s.model dir epoch name }
        r a rest hlast hc.2
      exact ⟨ih1, by simp [ih2]⟩

/-- Claim C7: a received command whose tag is not one of the six recognized
tags makes the Host log the error line and exit its dispatch loop without
sending any response. -/
theorem unknown_tag_fatal_no_response {σ Obs Acts : Type} (cap : Capability σ Obs Acts)
    (s : HostState σ Obs Acts) (tag : String) (rest : List (Cmd Obs)) :
    dispatch cap s (.unknown tag) = .halt [] ["Error: Unknown command " ++ tag] ∧
    hostRun cap s (.unknown tag :: rest) = (.stopped, []) :=
  ⟨rfl, rfl⟩

/-- Claim C8: quit() sends the Quit command and returns without reading any
response (the pending inbox is untouched), and on Quit the Host exits its
loop without sending any response. -/
theorem quit_sends_and_never_waits {σ Obs Acts : Type} (cap : Capability σ Obs Acts)
    (sys : Conn σ Obs Acts) (s : HostState σ Obs Acts) (rest : List (Cmd Obs)) :
    (ProcessingModel.quit cap sys).wire = sys.wire ++ [Cmd.quit] ∧
    (ProcessingModel.quit cap sys).inbox = sys.inbox ∧
    dispatch cap s Cmd.quit = .halt [] [] ∧
    hostRun cap s (Cmd.quit :: rest) = (.stopped, []) := by
  refine ⟨?_, ?_, rfl, rfl⟩ <;>
    cases hout : sys.outcome <;>
      simp [ProcessingModel.quit, sendCmd, dispatch, hout]

/-- Over a run without train commands that keeps the loop alive, the buffer
grows by exactly one step per sample command and is touched by nothing else. -/
theorem hostRun_buffer_steps_length {σ Obs Acts : Type} (cap : Capability σ Obs Acts) :
    ∀ (cmds : List (Cmd Obs)) (s s2 : HostState σ Obs Acts),
      cmds.all (fun c => ! c.isTrain) = true →
      (hostRun cap s cmds).1 = HostOutcome.ready s2 →
      s2.buffer.steps.length = s.buffer.steps.length + cmds.countP Cmd.isSample := by
  intro cmds
  induction cmds with
  | nil =>
    intro s s2 _ heq
    have h1 : s = s2 := by
      have h2 : (HostOutcome.ready s : HostOutcome σ Obs Acts)
          = HostOutcome.ready s2 := heq
      cases h2
      rfl
    subst h1
    simp
  | cons c cs ih =>
    intro s s2 hall heq
    rw [List.all_cons, Bool.and_eq_true] at hall
    cases c with
    | train p => exact Bool.noConfusion hall.1
    | act o ids pol eps =>
      simp only [hostRun, dispatch] at heq
      have hrec := ih
        { s with
          model := (cap.infer_action s.model o ids pol eps).1,
          last := some (ids, o, (cap.infer_action s.model o ids pol eps).2) }
        s2 hall.2 heq
      simpa [List.countP_cons, Cmd.isSample] using hrec
    | sample r a =>
      rcases hsl : s.last with _ | ⟨⟨ids, o, acts⟩⟩
      · simp only [hostRun, dispatch, hsl] at heq
        exact HostOutcome.noConfusion heq
      · simp only [hostRun, dispatch, hsl] at heq
        have hrec := ih
          { s with
            buffer := s.buffer.record_step ids o acts r a,
            last := some (ids, o, acts) }
          s2 hall.2 heq
        simp only [EpisodesBuffer.record_step, List.length_append,
          List.length_singleton] at hrec
        simp [List.countP_cons, Cmd.isSample]
        omega
    | save dir epoch =>
      simp only [hostRun, dispatch] at heq
      have hrec := ih { s with model := cap.save s.model dir epoch } s2 hall.2 heq
      simpa [List.countP_cons, Cmd.isSample] using hrec
    | load dir epoch name =>
      simp only [hostRun, dispatch] at heq
      have hrec := ih { s with model := cap.load s.model dir epoch name } s2 hall.2 heq
      simpa [List.countP_cons, Cmd.isSample] using hrec
    | quit =>
      simp only [hostRun, dispatch] at heq
      exact HostOutcome.noConfusion heq
    | unknown tag =>
      simp only [hostRun, dispatch] at heq
      exact HostOutcome.noConfusion heq

/-- conn.send always appends exactly the sent command to the wire. -/
theorem sendCmd_wire {σ Obs Acts : Type} (cap : Capability σ Obs Acts)
    (sys : Conn σ Obs Acts) (c : Cmd Obs) :
    (sendCmd cap sys c).wire = sys.wire ++ [c] := by
  cases hout : sys.outcome with
  | ready s => cases hd : dispatch cap s c <;> simp [sendCmd, hout, hd]
  | stopped => simp [sendCmd, hout]
  | crashed => simp [sendCmd, hout]

/-- check_done only reads from the connection: the wire is unchanged. -/
theorem check_done_wire {σ Obs Acts : Type} (sys : Conn σ Obs Acts) :
    (ProcessingModel.check_done sys).1.wire = sys.wire := by
  cases hin : sys.inbox with
  | nil => simp [ProcessingModel.check_done, recv, hin]
  | cons r rest => cases r <;> simp [ProcessingModel.check_done, recv, hin]

/-- Claim C5: with identical capability state and inputs, inferAction with
block set to false followed by fetchAction returns exactly what inferAction
with block set to true returns, with the same resulting connection state. -/
theorem infer_nonblocking_then_fetch_eq_blocking {σ Obs Acts : Type}
    (cap : Capability σ Obs Acts) (sys : Conn σ Obs Acts) (raw_obs : Obs)
    (ids : List Int) (policy : String) (eps : Rat) :
    ProcessingModel.fetch_action
        (ProcessingModel.infer_action cap sys raw_obs ids policy eps false).1 =
      ProcessingModel.infer_action cap sys raw_obs ids policy eps true :=
  rfl

/-- Claim C1 (amended): over any sequence of recognized non-Quit commands in
which no Sample precedes the first Infer, the freshly started Host loop stays
alive, sends exactly one response per command, and the i-th response has the
shape of the i-th command (FIFO, no reordering or duplication). -/
theorem host_one_response_per_command_in_order {σ Obs Acts : Type}
    (cap : Capability σ Obs Acts) (m : σ) (cap0 : Nat) (cmds : List (Cmd Obs))
    (h : okTrace false cmds = true) :
    (hostRun cap (initState m cap0) cmds).1.isReady = true ∧
    (hostRun cap (initState m cap0) cmds).2.length = cmds.length ∧
    List.Forall₂ (fun c r => respMatches c r = true) cmds
      (hostRun cap (initState m cap0) cmds).2 := by
  obtain ⟨h1, h2⟩ := hostRun_respMatches cap cmds false (initState m cap0) h
    (fun hb => Bool.noConfusion hb)
  exact ⟨h1, h2.length_eq.symm, h2⟩

/-- Claim C1 counterexample: the recognized non-Quit command sequence made of
one Sample draws zero responses from a freshly started Host, not one response
per command — the Host crashes on the unbound ids/obs/acts instead. -/
theorem host_response_count_counterexample :
    (hostRun capU (initState () 3) [Cmd.sample [0] [true]]).2.length ≠
      ([Cmd.sample [0] [true]] : List (Cmd Nat)).length := by
  decide

/-- Concrete run of the amended C1 theorem: an act, a sample and a train all
get a response, three in total. -/
theorem host_one_response_per_command_in_order_witness :
    (hostRun capU (initState () 3)
      [Cmd.act 5 [1] "e_greedy" 0, Cmd.sample [0] [true], Cmd.train 1]).1.isReady = true ∧
    (hostRun capU (initState () 3)
      [Cmd.act 5 [1] "e_greedy" 0, Cmd.sample [0] [true], Cmd.train 1]).2.length = 3 :=
  ⟨(host_one_response_per_command_in_order capU () 3
      [Cmd.act 5 [1] "e_greedy" 0, Cmd.sample [0] [true], Cmd.train 1] (by decide)).1,
   (host_one_response_per_command_in_order capU () 3
      [Cmd.act 5 [1] "e_greedy" 0, Cmd.sample [0] [true], Cmd.train 1] (by decide)).2.1⟩

/-- Claim C2: dispatching Train calls the capability train on the current
buffer with the requested log cadence, replaces the buffer by a fresh empty
one built with the host capacity argument (the same capacity as the buffer it
replaces, every host buffer being built with that argument), and sends the
(loss, meanValue) pair; consequently, after the reset a train-free run shows
the next train exactly one buffered step per sample dispatched since — the
pre-train transitions are not retained. -/
theorem train_uses_then_resets_buffer {σ Obs Acts : Type} (cap : Capability σ Obs Acts)
    (s : HostState σ Obs Acts) (p : Int) :
    dispatch cap s (.train p) =
      .cont
        { s with
          model := (cap.train s.model s.buffer p).1,
          buffer := EpisodesBuffer.new s.sample_buffer_capacity }
        [.trainResult (cap.train s.model s.buffer p).2.1
          (cap.train s.model s.buffer p).2.2] ∧
    (s.buffer.capacity = s.sample_buffer_capacity →
      (EpisodesBuffer.new s.sample_buffer_capacity : EpisodesBuffer Obs Acts).capacity
        = s.buffer.capacity) ∧
    (∀ (mid : List (Cmd Obs)) (s2 : HostState σ Obs Acts),
      mid.all (fun c => ! c.isTrain) = true →
      (hostRun cap
        { s with
          model := (cap.train s.model s.buffer p).1,
          buffer := EpisodesBuffer.new s.sample_buffer_capacity }
        mid).1 = HostOutcome.ready s2 →
      s2.buffer.steps.length = mid.countP Cmd.isSample) := by
  refine ⟨rfl, fun h => h.symm, ?_⟩
  intro mid s2 hall heq
  have h2 := hostRun_buffer_steps_length cap mid _ s2 hall heq
  simpa [EpisodesBuffer.new] using h2

/-- Concrete run of the C2 theorem: from sW (one buffered transition), train
resets the buffer, and a subsequent sample leaves exactly one step visible. -/
theorem train_uses_then_resets_buffer_witness :
    (EpisodesBuffer.new sW.sample_buffer_capacity : EpisodesBuffer Nat Nat).capacity
      = sW.buffer.capacity ∧
    (⟨(), 2, ⟨2, [⟨[1], 5, 7, [0], [true]⟩]⟩, some ([1], 5, 7)⟩
        : HostState Unit Nat Nat).buffer.steps.length
      = ([Cmd.sample [0] [true]] : List (Cmd Nat)).countP Cmd.isSample :=
  ⟨(train_uses_then_resets_buffer capU sW 1).2.1 rfl,
   (train_uses_then_resets_buffer capU sW 1).2.2 [Cmd.sample [0] [true]]
     ⟨(), 2, ⟨2, [⟨[1], 5, 7, [0], [true]⟩]⟩, some ([1], 5, 7)⟩ (by decide) rfl⟩

/-- Claim C3: an Infer dispatch binds ids/obs/acts to its own payload and the
freshly inferred actions; train, save and load dispatches leave them alone;
and a Sample dispatch with ids/obs/acts bound (as after any Infer dispatch)
appends exactly the Transition made of those carried-over values plus the
rewards and aliveFlags of the Sample payload, then sends the completion
marker. -/
theorem sample_records_carried_over_infer_values {σ Obs Acts : Type}
    (cap : Capability σ Obs Acts) (s : HostState σ Obs Acts) :
    (∀ (o : Obs) (ids : List Int) (pol : String) (eps : Rat),
      (dispatch cap s (.act o ids pol eps)).lastBound
        = some (some (ids, o, (cap.infer_action s.model o ids pol eps).2))) ∧
    (∀ (p : Int), (dispatch cap s (.train p)).lastBound = some s.last) ∧
    (∀ (dir : String) (epoch : Int),
      (dispatch cap s (.save dir epoch)).lastBound = some s.last) ∧
    (∀ (dir : String) (epoch : Int) (name : Option String),
      (dispatch cap s (.load dir epoch name)).lastBound = some s.last) ∧
    (∀ (r : List Rat) (a : List Bool) (ids : List Int) (o : Obs) (acts : Acts),
      s.last = some (ids, o, acts) →
      dispatch cap s (.sample r a)
        = .cont { s with buffer := s.buffer.record_step ids o acts r a } [.done] ∧
      (s.buffer.record_step ids o acts r a).steps
        = s.buffer.steps ++ [⟨ids, o, acts, r, a⟩]) := by
  refine ⟨fun o ids pol eps => rfl, fun p => rfl, fun dir epoch => rfl,
    fun dir epoch name => rfl, ?_⟩
  intro r a ids o acts hsl
  constructor
  · simp [dispatch, hsl]
  · rfl

/-- Concrete run of the C3 theorem: from sW, a sample appends the transition
built from the carried-over ([1], 5, 7) plus its own payload. -/
theorem sample_records_carried_over_infer_values_witness :
    dispatch capU sW (Cmd.sample [0] [true])
      = .cont { sW with buffer := sW.buffer.record_step [1] 5 7 [0] [true] } [.done] :=
  ((sample_records_carried_over_infer_values capU sW).2.2.2.2 [0] [true] [1] 5 7 rfl).1

/-- Claim C4 counterexample: two sessions whose most recent inferAction calls
used different observations and ids send identical Sample commands, so the
Sample payload is not built from anything cached on the Handle from the infer
call: it is the rewards and aliveFlags alone. -/
theorem sample_step_payload_counterexample :
    (ProcessingModel.sample_step capU
        (ProcessingModel.infer_action capU (initConn () 3) 5 [1] "e_greedy" 0 true).1
        [0] [true] false).1.wire.getLast? =
      (ProcessingModel.sample_step capU
        (ProcessingModel.infer_action capU (initConn () 3) 6 [2] "e_greedy" 0 true).1
        [0] [true] false).1.wire.getLast? ∧
    (ProcessingModel.sample_step capU
        (ProcessingModel.infer_action capU (initConn () 3) 5 [1] "e_greedy" 0 true).1
        [0] [true] false).1.wire.getLast? = some (Cmd.sample [0] [true]) ∧
    (5 : Nat) ≠ 6 ∧ ([1] : List Int) ≠ [2] :=
  ⟨rfl, rfl, by decide, by decide⟩

/-- Claim C4 (amended): every sampleStep call sends a Sample command whose
payload is exactly the given rewards and aliveFlags; ids, observation and
actions are not part of the message — the Host reuses the ones of its most
recent Infer dispatch. -/
theorem sample_step_sends_only_rewards_alives {σ Obs Acts : Type}
    (cap : Capability σ Obs Acts) (sys : Conn σ Obs Acts) (rewards : List Rat)
    (alives : List Bool) (block : Bool) :
    (ProcessingModel.sample_step cap sys rewards alives block).1.wire
      = sys.wire ++ [Cmd.sample rewards alives] := by
  cases block <;>
    simp [ProcessingModel.sample_step, check_done_wire, sendCmd_wire]

/-- Claim C6: check_done consumes exactly the next pending response, succeeds
precisely when it is the completion marker, and fails with the ProtocolError
(the failed assert) on any other received response. -/
theorem check_done_validates_done_marker {σ Obs Acts : Type} (sys : Conn σ Obs Acts)
    (r : Resp Acts) (rest : List (Resp Acts)) (h : sys.inbox = r :: rest) :
    ((ProcessingModel.check_done sys).2 = Status.ok ↔ r = Resp.done) ∧
    (r ≠ Resp.done → (ProcessingModel.check_done sys).2 = Status.protocolError) ∧
    (ProcessingModel.check_done sys).1.inbox = rest := by
  cases r <;> simp [ProcessingModel.check_done, recv, h]

/-- Concrete runs of the C6 theorem: a pending (loss, value) pair makes
check_done fail with the ProtocolError; a pending completion marker makes it
succeed. -/
theorem check_done_validates_done_marker_witness :
    (ProcessingModel.check_done
        (⟨.ready sW, [Resp.trainResult 0 0], []⟩ : Conn Unit Nat Nat)).2
      = Status.protocolError ∧
    (ProcessingModel.check_done
        (⟨.ready sW, [Resp.done], []⟩ : Conn Unit Nat Nat)).2 = Status.ok :=
  ⟨(check_done_validates_done_marker _ (Resp.trainResult 0 0) [] rfl).2.1 (by decide),
   (check_done_validates_done_marker
      (⟨.ready sW, [Resp.done], []⟩ : Conn Unit Nat Nat) Resp.done [] rfl).1.mpr rfl⟩

/-- Claim C9: when the Host dispatches a Sample before any Infer (here: after
any prefix of train/save/load commands), the worker crashes on the unbound
ids/obs/acts names and the completion marker for that Sample is never sent —
only the prefix commands get responses. -/
theorem sample_before_infer_crashes {σ Obs Acts : Type} (cap : Capability σ Obs Acts)
    (m : σ) (cap0 : Nat) (pre : List (Cmd Obs)) (r : List Rat) (a : List Bool)
    (rest : List (Cmd Obs)) (h : pre.all Cmd.isTSL = true) :
    (hostRun cap (initState m cap0) (pre ++ Cmd.sample r a :: rest)).1
      = HostOutcome.crashed ∧
    (hostRun cap (initState m cap0) (pre ++ Cmd.sample r a :: rest)).2.length
      = pre.length :=
  hostRun_crashes_on_unpaired_sample cap pre (initState m cap0) r a rest rfl h

/-- Concrete run of the C9 theorem: a train then a sample on a fresh worker
crashes it with only the train answered. -/
theorem sample_before_infer_crashes_witness :
    (hostRun capU (initState () 3) ([Cmd.train 1] ++ Cmd.sample [0] [true] :: [])).1
      = HostOutcome.crashed ∧
    (hostRun capU (initState () 3) ([Cmd.train 1] ++ Cmd.sample [0] [true] :: [])).2.length
      = 1 :=
  sample_before_infer_crashes capU () 3 [Cmd.train 1] [0] [true] [] (by decide)

/-- Claim C10: inferAction and train called with block false return None and
read nothing from the channel — the previously pending responses stay queued
in front of the new one — and when the handle discipline is respected (empty
inbox) the pending response is exactly what a later fetchAction or fetchTrain
returns. -/
theorem nonblocking_returns_none_reads_nothing {σ Obs Acts : Type}
    (cap : Capability σ Obs Acts) (sys : Conn σ Obs Acts) (o : Obs) (ids : List Int)
    (pol : String) (eps : Rat) (pe : Int) (s : HostState σ Obs Acts)
    (h : sys.outcome = .ready s) :
    (ProcessingModel.infer_action cap sys o ids pol eps false).2 = none ∧
    (ProcessingModel.train cap sys pe false).2 = none ∧
    (ProcessingModel.infer_action cap sys o ids pol eps false).1.inbox
      = sys.inbox ++ [Resp.actions (cap.infer_action s.model o ids pol eps).2] ∧
    (ProcessingModel.train cap sys pe false).1.inbox
      = sys.inbox ++ [Resp.trainResult (cap.train s.model s.buffer pe).2.1
          (cap.train s.model s.buffer pe).2.2] ∧
    (sys.inbox = [] →
      (ProcessingModel.fetch_action
          (ProcessingModel.infer_action cap sys o ids pol eps false).1).2
        = some (Resp.actions (cap.infer_action s.model o ids pol eps).2) ∧
      (ProcessingModel.fetch_train (ProcessingModel.train cap sys pe false).1).2
        = some (Resp.trainResult (cap.train s.model s.buffer pe).2.1
            (cap.train s.model s.buffer pe).2.2)) := by
  refine ⟨rfl, rfl, ?_, ?_, ?_⟩
  · simp [ProcessingModel.infer_action, sendCmd, h, dispatch]
  · simp [ProcessingModel.train, sendCmd, h, dispatch]
  · intro hin
    constructor <;>
      simp [ProcessingModel.infer_action, ProcessingModel.train,
        ProcessingModel.fetch_action, ProcessingModel.fetch_train, recv, sendCmd,
        h, dispatch, hin]

/-- Concrete run of the C10 theorem: a non-blocking infer on connW returns
None and leaves the action vector pending in the inbox. -/
theorem nonblocking_returns_none_reads_nothing_witness :
    (ProcessingModel.infer_action capU connW 5 [1] "e_greedy" 0 false).2 = none ∧
    (ProcessingModel.infer_action capU connW 5 [1] "e_greedy" 0 false).1.inbox
      = [Resp.actions 0] ∧
    (ProcessingModel.fetch_action
        (ProcessingModel.infer_action capU connW 5 [1] "e_greedy" 0 false).1).2
      = some (Resp.actions 0) :=
  ⟨(nonblocking_returns_none_reads_nothing capU connW 5 [1] "e_greedy" 0 7 sW rfl).1,
   (nonblocking_returns_none_reads_nothing capU connW 5 [1] "e_greedy" 0 7 sW rfl).2.2.1,
   ((nonblocking_returns_none_reads_nothing capU connW 5 [1] "e_greedy" 0 7 sW rfl).2.2.2.2
      rfl).1⟩

end MAgent
